import Mathlib

/-!
Verification of the FlagGems dispatch-cache core (`src/flag_gems/utils/libentry.py`):
argument classification and specialization keys (`LibEntry.key`), the single-flight
compile path of `LibEntry.run`, grid resolution, and the persistent tuning store
(`LibTuner.preload` / `LibTuner.store` / `LibTuner.getvalue`).

Python runtime values are embedded as the inductive `PyVal`; machine-level details
that the dispatcher inspects (tensor dtype, data pointer) are carried explicitly.
-/

namespace FlagGems

/-- Torch element dtypes that appear as tensor dtypes / `torch.<name>` attributes. -/
inductive DType where
  | float16 | float32 | float64 | bfloat16
  | int8 | int16 | int32 | int64 | uint8 | boolT
deriving DecidableEq, Repr

/-- Python runtime types, as produced by `type(arg)` on the values we model. -/
inductive PyType where
  | intT | boolT | floatT | strT | noneT | dtypeT | typeT | tensorT
deriving DecidableEq, Repr

/-- A Python runtime value as seen by the dispatcher.  A `tensor` carries the two
pieces of machine state `LibEntry.key` inspects: the element dtype and the device
pointer returned by `data_ptr()`. -/
inductive PyVal where
  | int (n : Int)
  | bool (b : Bool)
  | str (s : String)
  | dtype (d : DType)
  | pytype (t : PyType)
  | tensor (d : DType) (ptr : Nat)
  | none
deriving DecidableEq, Repr

/-- Python `type(arg)` on the modelled value domain. -/
def typeOf : PyVal → PyType
  | .int _ => .intT
  | .bool _ => .boolT
  | .str _ => .strT
  | .dtype _ => .dtypeT
  | .pytype _ => .typeT
  | .tensor _ _ => .tensorT
  | .none => .noneT

/-- Python `hasattr(arg, "data_ptr")` on the modelled domain: true exactly for tensors. -/
def hasDataPtr : PyVal → Bool
  | .tensor _ _ => true
  | _ => false

/-- Python `isinstance(arg, int)`: true for `int` and for `bool` (a subclass of `int`). -/
def isInstInt : PyVal → Bool
  | .int _ => true
  | .bool _ => true
  | _ => false

/-- The integer value of an `int`-like Python value (`True` counts as 1, `False` as 0). -/
def intValue : PyVal → Int
  | .int n => n
  | .bool b => if b then 1 else 0
  | _ => 0

/-- One element of a specialization key: Python builds either a 2-tuple
(`(dtype, aligned)` or `(type, value)`) or a bare value (dns tags and constexpr
arguments are appended raw). -/
inductive KeyElem where
  | pair (a b : PyVal)
  | val (v : PyVal)
deriving DecidableEq, Repr

/-! ### Python dict model

Dicts (`kwargs`, `constexprs`, caches) are association lists in insertion order,
looked up with `alookup` and updated with `aset` (Python `d[k] = v`: update the
existing entry in place, else append).  `mergeDicts a b` is Python
`\x7b**a, **b\x7d`: start from `a` and assign every entry of `b` in order. -/

/-- First-match association lookup (Python `d[k]` / `k in d`). -/
def alookup {κ α : Type} [DecidableEq κ] : List (κ × α) → κ → Option α
  | [], _ => Option.none
  | (k, v) :: rest, k' => if k' = k then some v else alookup rest k'

/-- Python dict assignment `d[k] = v`: replace the entry for `k` if present,
else append `(k, v)` at the end. -/
def aset {κ α : Type} [DecidableEq κ] (d : List (κ × α)) (k : κ) (v : α) :
    List (κ × α) :=
  if (alookup d k).isSome then
    d.map (fun p => if p.1 = k then (k, v) else p)
  else d ++ [(k, v)]

/-- Python `\x7b**a, **b\x7d`: assign every entry of `b`, in order, into `a`. -/
def mergeDicts {κ α : Type} [DecidableEq κ] (a b : List (κ × α)) : List (κ × α) :=
  b.foldl (fun d kv => aset d kv.1 kv.2) a

@[simp]
theorem alookup_nil {κ α : Type} [DecidableEq κ] (k : κ) :
    alookup ([] : List (κ × α)) k = Option.none := rfl

theorem alookup_cons {κ α : Type} [DecidableEq κ] (pk : κ) (pv : α)
    (rest : List (κ × α)) (k : κ) :
    alookup ((pk, pv) :: rest) k = if k = pk then some pv else alookup rest k := rfl

theorem mergeDicts_cons {κ α : Type} [DecidableEq κ] (a : List (κ × α))
    (pk : κ) (pv : α) (rest : List (κ × α)) :
    mergeDicts a ((pk, pv) :: rest) = mergeDicts (aset a pk pv) rest := rfl

theorem alookup_eq_none_of_not_mem {κ α : Type} [DecidableEq κ]
    (l : List (κ × α)) (k : κ) (h : k ∉ l.map Prod.fst) :
    alookup l k = Option.none := by
  induction l with
  | nil => rfl
  | cons p rest ih =>
    obtain ⟨pk, pv⟩ := p
    rw [List.map_cons, List.mem_cons] at h
    rw [alookup_cons, if_neg (fun he => h (Or.inl he))]
    exact ih (fun hm => h (Or.inr hm))

theorem alookup_append_of_none {κ α : Type} [DecidableEq κ]
    {d : List (κ × α)} {k : κ} (h : alookup d k = Option.none) (e : List (κ × α)) :
    alookup (d ++ e) k = alookup e k := by
  induction d with
  | nil => simp
  | cons p rest ih =>
    obtain ⟨pk, pv⟩ := p
    rw [alookup_cons] at h
    rw [List.cons_append, alookup_cons]
    by_cases hk : k = pk
    · rw [if_pos hk] at h; exact absurd h (by simp)
    · rw [if_neg hk] at h
      rw [if_neg hk]
      exact ih h

theorem alookup_replace_self {κ α : Type} [DecidableEq κ]
    (d : List (κ × α)) (k : κ) (v : α) (h : (alookup d k).isSome) :
    alookup (d.map fun p => if p.1 = k then (k, v) else p) k = some v := by
  induction d with
  | nil => simp [alookup] at h
  | cons p rest ih =>
    obtain ⟨pk, pv⟩ := p
    rw [alookup_cons] at h
    by_cases hk : k = pk
    · subst hk
      simp only [List.map_cons]
      rw [if_pos trivial, alookup_cons, if_pos rfl]
    · rw [if_neg hk] at h
      simp only [List.map_cons]
      rw [if_neg (fun he : pk = k => hk he.symm), alookup_cons, if_neg hk]
      exact ih h

theorem alookup_replace_ne {κ α : Type} [DecidableEq κ]
    (d : List (κ × α)) (k k' : κ) (v : α) (h : k' ≠ k) :
    alookup (d.map fun p => if p.1 = k then (k, v) else p) k' = alookup d k' := by
  induction d with
  | nil => rfl
  | cons p rest ih =>
    obtain ⟨pk, pv⟩ := p
    simp only [List.map_cons]
    by_cases hk : pk = k
    · subst hk
      rw [if_pos rfl, alookup_cons, alookup_cons, if_neg h, if_neg h]
      exact ih
    · rw [if_neg hk, alookup_cons, alookup_cons]
      by_cases hp : k' = pk
      · rw [if_pos hp, if_pos hp]
      · rw [if_neg hp, if_neg hp]
        exact ih

theorem alookup_append_single_ne {κ α : Type} [DecidableEq κ]
    (d : List (κ × α)) (k k' : κ) (v : α) (h : k' ≠ k) :
    alookup (d ++ [(k, v)]) k' = alookup d k' := by
  induction d with
  | nil => simp [alookup_cons, h]
  | cons p rest ih =>
    obtain ⟨pk, pv⟩ := p
    rw [List.cons_append, alookup_cons, alookup_cons]
    by_cases hp : k' = pk
    · rw [if_pos hp, if_pos hp]
    · rw [if_neg hp, if_neg hp]
      exact ih

theorem alookup_aset_self {κ α : Type} [DecidableEq κ]
    (d : List (κ × α)) (k : κ) (v : α) : alookup (aset d k v) k = some v := by
  rw [aset]
  by_cases hs : (alookup d k).isSome
  · rw [if_pos hs]
    exact alookup_replace_self d k v hs
  · rw [if_neg hs]
    have hn : alookup d k = Option.none := by
      cases h : alookup d k with
      | none => rfl
      | some w => rw [h] at hs; simp at hs
    rw [alookup_append_of_none hn, alookup_cons, if_pos rfl]

theorem alookup_aset_ne {κ α : Type} [DecidableEq κ]
    (d : List (κ × α)) (k k' : κ) (v : α) (h : k' ≠ k) :
    alookup (aset d k v) k' = alookup d k' := by
  rw [aset]
  by_cases hs : (alookup d k).isSome
  · rw [if_pos hs]
    exact alookup_replace_ne d k k' v h
  · rw [if_neg hs]
    exact alookup_append_single_ne d k k' v h

/-- Keys absent from `b` are untouched by merging `b` in. -/
theorem alookup_mergeDicts_of_none {κ α : Type} [DecidableEq κ]
    (b : List (κ × α)) : ∀ (a : List (κ × α)) (k : κ),
    alookup b k = Option.none → alookup (mergeDicts a b) k = alookup a k := by
  induction b with
  | nil => intro a k _; rfl
  | cons p rest ih =>
    intro a k h
    obtain ⟨pk, pv⟩ := p
    rw [alookup_cons] at h
    by_cases hk : k = pk
    · rw [if_pos hk] at h; exact absurd h (by simp)
    · rw [if_neg hk] at h
      rw [mergeDicts_cons, ih _ _ h]
      exact alookup_aset_ne a pk k pv hk

/-- Entries of `b` (with nodup keys) win after merging `b` into anything. -/
theorem alookup_mergeDicts_of_some {κ α : Type} [DecidableEq κ]
    (b : List (κ × α)) : ∀ (a : List (κ × α)) (k : κ) (v : α),
    (b.map Prod.fst).Nodup → alookup b k = some v →
    alookup (mergeDicts a b) k = some v := by
  induction b with
  | nil => intro a k v _ h; simp at h
  | cons p rest ih =>
    intro a k v hnd h
    obtain ⟨pk, pv⟩ := p
    rw [List.map_cons, List.nodup_cons] at hnd
    rw [alookup_cons] at h
    rw [mergeDicts_cons]
    by_cases hk : k = pk
    · rw [if_pos hk] at h
      have h2 : pv = v := Option.some.inj h
      subst h2
      subst hk
      have hrest : alookup rest k = Option.none :=
        alookup_eq_none_of_not_mem rest k hnd.1
      rw [alookup_mergeDicts_of_none rest _ _ hrest]
      exact alookup_aset_self a k pv
    · rw [if_neg hk] at h
      exact ih _ _ _ hnd.2 h

/-! ### `LibEntry.key` (libentry.py lines 155-175) -/

/-- `self.divisibility = 16` (set in `LibEntry.__init__`). -/
def LibEntry.divisibility : Nat := 16

/-- One element of `spec_key`: `(arg.dtype, arg.data_ptr() % self.divisibility == 0)`
for a device buffer, else `(type(arg), arg)`. -/
def specKeyElem (arg : PyVal) : KeyElem :=
  match arg with
  | .tensor d ptr => .pair (.dtype d) (.bool (ptr % LibEntry.divisibility == 0))
  | a => .pair (.pytype (typeOf a)) a

/-- One element of `dns_key`: `arg.dtype` for a buffer; else `type(arg)` for a
non-int; else an integer width-class tag `"i32"` / `"u64"` / `"i64"`. -/
def dnsKeyElem (arg : PyVal) : KeyElem :=
  match arg with
  | .tensor d _ => .val (.dtype d)
  | a =>
    if ¬ (isInstInt a = true) then .val (.pytype (typeOf a))
    else
      let n := intValue a
      if -(2 ^ 31) ≤ n ∧ n ≤ 2 ^ 31 - 1 then .val (.str "i32")
      else if 2 ^ 63 ≤ n ∧ n ≤ 2 ^ 64 - 1 then .val (.str "u64")
      else .val (.str "i64")

/-- `LibEntry.key`: `tuple(spec_key + dns_key + const_args)` (const args appended
raw, by position). -/
def LibEntry.key (spec_args dns_args const_args : List PyVal) : List KeyElem :=
  spec_args.map specKeyElem ++ dns_args.map dnsKeyElem ++ const_args.map .val

/-! ### Kernel parameters and the wrapper (decision-stage) chain -/

/-- Kernel dicts: string-keyed association lists (Python dict in insertion order). -/
abbrev Dict := List (String × PyVal)

/-- One `triton.runtime.JITFunction` parameter, as `LibEntry.__init__` and
`LibEntry.run` read it: name, ordinal `num`, the `is_constexpr` and
`do_not_specialize` flags, and the declared default (`Option.none` models
`inspect._empty`). -/
structure Param where
  name : String
  num : Nat
  is_constexpr : Bool
  do_not_specialize : Bool
  default : Option PyVal
deriving DecidableEq, Repr

/-- A `triton.Config`: tuning kwargs plus launch-resource fields, mirroring the
fields `LibEntry.run` and `LibTuner.preload` read
(`kwargs`, `num_warps`, `num_ctas`, `num_stages`, `enable_fp_fusion`). -/
structure TConfig where
  kwargs : Dict
  num_warps : Int
  num_ctas : Int
  num_stages : Int
  enable_fp_fusion : Bool
deriving DecidableEq, Repr

/-- The wrapper chain around the innermost JIT function (`self.fn` links via
`.fn` attributes): an `Autotuner` stage (the `LibTuner` subclass included)
carrying its `best_config`, a `Heuristics` stage carrying its `arg_names` and
named heuristic functions, or a wrapper of a type `LibEntry.run` does not
recognize. The chain terminates at the JIT function holding the parameter list. -/
inductive TritonFn where
  | jit (params : List Param)
  | autotuner (best_config : TConfig) (fn : TritonFn)
  | heuristics (arg_names : List String) (values : List (String × (Dict → PyVal)))
      (fn : TritonFn)
  | unknownFn (fn : TritonFn)

/-- `LibEntry.__init__`'s unwrap loop: follow `.fn` until the JIT function and
take its `params`. -/
def jitParams : TritonFn → List Param
  | .jit ps => ps
  | .autotuner _ f => jitParams f
  | .heuristics _ _ f => jitParams f
  | .unknownFn f => jitParams f

/-- Whether the chain contains a wrapper that is neither an `Autotuner` nor a
`Heuristics` stage (before the innermost JIT function). -/
def hasUnknownStage : TritonFn → Bool
  | .jit _ => false
  | .autotuner _ f => hasUnknownStage f
  | .heuristics _ _ f => hasUnknownStage f
  | .unknownFn _ => true

/-- `self.specialize_indices`: ordinals of params that are neither constexpr nor
do-not-specialize. -/
def specializeIndices (ps : List Param) : List Nat :=
  (ps.filter fun p => !p.is_constexpr && !p.do_not_specialize).map (·.num)

/-- `self.do_not_specialize_indices`: ordinals of non-constexpr params marked
do-not-specialize. -/
def doNotSpecializeIndices (ps : List Param) : List Nat :=
  (ps.filter fun p => !p.is_constexpr && p.do_not_specialize).map (·.num)

/-- The constexpr-collection walk of `LibEntry.run` (libentry.py lines 222-243):
starting from `constexprs = \x7b\x7d`, each `Autotuner` stage contributes
`num_warps`, `num_stages` (and `num_ctas` only if already present — the code
tests `if "num_ctas" in constexprs.keys()`) and merges in `config.kwargs`; each
`Heuristics` stage evaluates its heuristics on
`\x7b**dict(zip(fn.arg_names, args)), **kwargs, **constexprs\x7d`; any other
wrapper raises `RuntimeError("Invalid Runtime Function")`. -/
def collectStages (args : List PyVal) (kw : Dict) :
    TritonFn → Dict → Except String Dict
  | .jit _, ce => .ok ce
  | .autotuner cfg f, ce =>
      let ce1 := aset ce "num_warps" (.int cfg.num_warps)
      let ce2 := aset ce1 "num_stages" (.int cfg.num_stages)
      let ce3 := if (alookup ce2 "num_ctas").isSome
                 then aset ce2 "num_ctas" (.int cfg.num_ctas) else ce2
      collectStages args kw f (mergeDicts ce3 cfg.kwargs)
  | .heuristics names values f, ce =>
      collectStages args kw f
        (values.foldl (fun ce vh =>
          aset ce vh.1 (vh.2 (mergeDicts (mergeDicts (List.zip names args) kw) ce))) ce)
  | .unknownFn _, _ => .error "Invalid Runtime Function"

/-- The defaults pass after the walk: every constexpr param not yet in
`constexprs` whose default is declared gets its default. -/
def fillDefaults (ps : List Param) (ce : Dict) : Dict :=
  ps.foldl (fun ce p =>
    if p.is_constexpr && (alookup ce p.name).isNone && p.default.isSome then
      aset ce p.name (p.default.getD .none)
    else ce) ce

/-! ### `LibEntry.run` (sequential semantics, libentry.py lines 177-267) -/

/-- A registered `LibEntry`: the wrapped chain and `fn.arg_names`. -/
structure LibEntry where
  fn : TritonFn
  arg_names : List String

/-- The three argument groups plus the kernel launch arguments `k_args`
collected by `LibEntry.run`. -/
structure ArgSplit where
  spec : List PyVal
  dns : List PyVal
  const : List PyVal
  kargs : List PyVal
deriving Repr

/-- One step of the positional loop `for i, arg in enumerate(args)`. -/
def stepPositional (ps : List Param) (acc : ArgSplit) (ia : Nat × PyVal) : ArgSplit :=
  if (specializeIndices ps).contains ia.1 then
    { acc with kargs := acc.kargs ++ [ia.2], spec := acc.spec ++ [ia.2] }
  else if (doNotSpecializeIndices ps).contains ia.1 then
    { acc with kargs := acc.kargs ++ [ia.2], dns := acc.dns ++ [ia.2] }
  else
    { acc with const := acc.const ++ [ia.2] }

/-- One step of the keyword/default loop `for p in self.jit_function.params[len(args):]`. -/
def stepKeyword (kwargs : Dict) (acc : ArgSplit) (p : Param) : ArgSplit :=
  let val? := match alookup kwargs p.name with
    | some v => some v
    | Option.none => p.default
  match val? with
  | Option.none => acc
  | some val =>
    if p.is_constexpr then { acc with const := acc.const ++ [val] }
    else if p.do_not_specialize then
      { acc with dns := acc.dns ++ [val], kargs := acc.kargs ++ [val] }
    else
      { acc with spec := acc.spec ++ [val], kargs := acc.kargs ++ [val] }

/-- The full argument-collection phase of `LibEntry.run`. -/
def collectArgs (e : LibEntry) (args : List PyVal) (kwargs : Dict) : ArgSplit :=
  let ps := jitParams e.fn
  ((ps.drop args.length).foldl (stepKeyword kwargs)
    (args.enum.foldl (stepPositional ps) ⟨[], [], [], []⟩))

/-- The specialization key of one call (`entry_key = self.key(...)`). -/
def entryKey (e : LibEntry) (args : List PyVal) (kwargs : Dict) : List KeyElem :=
  LibEntry.key (collectArgs e args kwargs).spec (collectArgs e args kwargs).dns
    (collectArgs e args kwargs).const

/-- A cached entry `(kernel, constexprs)`; the compiled kernel is identified by
the value of the compile counter when it was produced. -/
abbrev CacheEntry := Nat × Dict

/-- The launch-shape argument: a fixed tuple or a callable of the merged
argument dict (`kwargs["grid"]` in the source; modelled as a separate argument,
with `kwargs` standing for the remaining keyword arguments). -/
inductive GridSpec where
  | tup (g : List Int)
  | call (f : Dict → List Int)

/-- Process-wide dispatch state: one cache table per device
(`self.kernel_cache`), plus an instrumentation counter of compile/tune passes
(invocations of `self.fn.run` on the miss path). -/
structure DispatchState where
  kernel_cache : Nat → List (List KeyElem × CacheEntry)
  compileCount : Nat

/-- The observable outcome of one `LibEntry.run` call: the returned
`(kernel, constexprs)` pair, the successor state, whether the compile/tune path
ran, and the launch record (resolved rank-limited grid and `k_args`) if the
direct-launch path executed. -/
structure RunOut where
  kernel : Nat
  constexprs : Dict
  state : DispatchState
  launched : Option (List Int × List PyVal)
  compiled : Bool

/-- The merged view used for callable grids:
`\x7b**dict(zip(self.arg_names, args)), **kwargs, **constexprs\x7d`. -/
def gridMeta (names : List String) (args : List PyVal) (kwargs ce : Dict) : Dict :=
  mergeDicts (mergeDicts (List.zip names args) kwargs) ce

/-- `LibEntry.run`, single-threaded semantics (the interleaved semantics of the
miss path is the transition system below).  On a miss the fresh kernel is the
current compile counter, the constexpr walk runs (it can raise), the entry is
inserted and returned with no launch; on a hit the stored entry is used, the
grid is resolved (`grid(meta)` for a callable), padded with `+ (1, 1)`,
truncated with `[0:3]`, and the kernel is launched on `k_args`. -/
def LibEntry.run (e : LibEntry) (args : List PyVal) (kwargs : Dict)
    (grid : GridSpec) (device : Nat) (st : DispatchState) :
    Except String RunOut :=
  let sp := collectArgs e args kwargs
  let ek := entryKey e args kwargs
  let cache := st.kernel_cache device
  match alookup cache ek with
  | Option.none =>
      match collectStages args kwargs e.fn [] with
      | .error msg => .error msg
      | .ok ce0 =>
          let constexprs := fillDefaults (jitParams e.fn) ce0
          let kernel := st.compileCount
          let cache1 := cache ++ [(ek, (kernel, constexprs))]
          .ok { kernel := kernel, constexprs := constexprs,
                state := { kernel_cache := Function.update st.kernel_cache device cache1,
                           compileCount := st.compileCount + 1 },
                launched := Option.none, compiled := true }
  | some (kernel, constexprs) =>
      let g := match grid with
        | .call f => f (gridMeta e.arg_names args kwargs constexprs)
        | .tup g0 => g0
      let g3 := (g ++ [1, 1]).take 3
      .ok { kernel := kernel, constexprs := constexprs, state := st,
            launched := some (g3, sp.kargs), compiled := false }

/-- A sequence of `LibEntry.run` calls threading the dispatch state. -/
def runCalls (e : LibEntry) (grid : GridSpec) (device : Nat) :
    List (List PyVal × Dict) → DispatchState → Except String DispatchState
  | [], st => .ok st
  | c :: rest, st =>
      match LibEntry.run e c.1 c.2 grid device st with
      | .error msg => .error msg
      | .ok r => runCalls e grid device rest r.state

/-! ### Interleaved semantics of the miss path (libentry.py lines 211-254)

K threads execute `LibEntry.run` concurrently with arguments producing the same
`SpecializationKey`, absent from the selected per-device cache.  Each thread runs

    while entry_key not in cache:          -- outerTest
        with self.lock:                    -- awaitLock / acquire
            if entry_key in cache: break   -- innerTest (break exits the while)
            kernel = self.fn.run(...)      -- doCompile (one compile/tune pass)
            ...collect constexprs...
            cache[entry_key] = (kernel, constexprs)   -- doInsert
        return kernel, constexprs          -- doRelease, then done
    kernel, constexprs = cache[entry_key]  -- readCache, then done

Cache reads happen outside the lock; cache writes happen only under the lock.
A compiled entry is identified by the value of the global compile counter at the
moment it was produced, so equality of entry identifiers models reference
identity of the cached `(kernel, constexprs)` object. -/

/-- Program counter of one thread in the miss path of `LibEntry.run`. -/
inductive PC where
  | outerTest | awaitLock | innerTest | doCompile | doInsert | doRelease
  | readCache | done
deriving DecidableEq, Repr

/-- One thread: its program counter and the `(kernel, constexprs)` entry it
holds (its compile result, or the entry it read from the cache). -/
structure TState where
  pc : PC
  res : Option Nat
deriving DecidableEq, Repr

/-- Shared state for one missing key: the cache slot for that key, the
process-wide lock (`self.lock`), the compile counter, and the threads. -/
structure Sys (n : Nat) where
  cache : Option Nat
  lockOwner : Option (Fin n)
  compiles : Nat
  th : Fin n → TState

/-- Whether a `pc` is inside the `with self.lock`-protected region. -/
def inCrit : PC → Bool
  | .innerTest => true
  | .doCompile => true
  | .doInsert => true
  | .doRelease => true
  | _ => false

/-- The atomic steps of thread `i`, one per observable operation of the source. -/
inductive ThreadStep {n : Nat} (i : Fin n) : Sys n → Sys n → Prop where
  | outerHit (s : Sys n) (e : Nat) :
      (s.th i).pc = .outerTest → s.cache = some e →
      ThreadStep i s { s with th := Function.update s.th i ⟨.readCache, (s.th i).res⟩ }
  | outerMiss (s : Sys n) :
      (s.th i).pc = .outerTest → s.cache = Option.none →
      ThreadStep i s { s with th := Function.update s.th i ⟨.awaitLock, (s.th i).res⟩ }
  | acquire (s : Sys n) :
      (s.th i).pc = .awaitLock → s.lockOwner = Option.none →
      ThreadStep i s { s with lockOwner := some i,
                              th := Function.update s.th i ⟨.innerTest, (s.th i).res⟩ }
  | innerHit (s : Sys n) (e : Nat) :
      (s.th i).pc = .innerTest → s.cache = some e →
      ThreadStep i s { s with lockOwner := Option.none,
                              th := Function.update s.th i ⟨.readCache, (s.th i).res⟩ }
  | innerMiss (s : Sys n) :
      (s.th i).pc = .innerTest → s.cache = Option.none →
      ThreadStep i s { s with th := Function.update s.th i ⟨.doCompile, (s.th i).res⟩ }
  | compileStep (s : Sys n) :
      (s.th i).pc = .doCompile →
      ThreadStep i s { s with compiles := s.compiles + 1,
                              th := Function.update s.th i ⟨.doInsert, some s.compiles⟩ }
  | insertStep (s : Sys n) :
      (s.th i).pc = .doInsert →
      ThreadStep i s { s with cache := (s.th i).res,
                              th := Function.update s.th i ⟨.doRelease, (s.th i).res⟩ }
  | releaseStep (s : Sys n) :
      (s.th i).pc = .doRelease →
      ThreadStep i s { s with lockOwner := Option.none,
                              th := Function.update s.th i ⟨.done, (s.th i).res⟩ }
  | readStep (s : Sys n) (e : Nat) :
      (s.th i).pc = .readCache → s.cache = some e →
      ThreadStep i s { s with th := Function.update s.th i ⟨.done, some e⟩ }

/-- Interleaving: some thread takes a step. -/
def SysStep {n : Nat} (s s' : Sys n) : Prop := ∃ i : Fin n, ThreadStep i s s'

/-- All K threads at the top of the `while` loop, the key absent, the lock free,
no compile pass yet. -/
def SysInit (n : Nat) : Sys n :=
  { cache := Option.none, lockOwner := Option.none, compiles := 0,
    th := fun _ => ⟨.outerTest, Option.none⟩ }

/-- Configurations reachable from the initial configuration. -/
def Reachable {n : Nat} (s : Sys n) : Prop :=
  Relation.ReflTransGen SysStep (SysInit n) s

/-- The inductive invariant of the single-flight protocol. -/
structure SysInv {n : Nat} (s : Sys n) : Prop where
  crit_owner : ∀ i, inCrit (s.th i).pc = true → s.lockOwner = some i
  owner_crit : ∀ i, s.lockOwner = some i → inCrit (s.th i).pc = true
  comp_le : s.compiles ≤ 1
  cache_val : ∀ e, s.cache = some e → e = 0 ∧ s.compiles = 1
  pc_compile : ∀ i, (s.th i).pc = .doCompile → s.cache = Option.none ∧ s.compiles = 0
  pc_insert : ∀ i, (s.th i).pc = .doInsert →
    s.cache = Option.none ∧ s.compiles = 1 ∧ (s.th i).res = some 0
  pc_release : ∀ i, (s.th i).pc = .doRelease →
    s.cache = some 0 ∧ (s.th i).res = some 0
  pc_done : ∀ i, (s.th i).pc = .done → s.cache = some 0 ∧ (s.th i).res = some 0
  pc_read : ∀ i, (s.th i).pc = .readCache → s.cache = some 0
  compiled_origin : s.compiles = 1 → s.cache = some 0 ∨ ∃ i, (s.th i).pc = .doInsert

theorem sysInv_init (n : Nat) : SysInv (SysInit n) := by
  refine ⟨?_, ?_, ?_, ?_, ?_, ?_, ?_, ?_, ?_, ?_⟩ <;>
    simp [SysInit, inCrit]

theorem sysInv_step {n : Nat} {s s' : Sys n} (hs : SysInv s) (hstep : SysStep s s') :
    SysInv s' := by
  obtain ⟨i, hi⟩ := hstep
  cases hi with
  | outerHit e hpc hc =>
    refine ⟨?_, ?_, hs.comp_le, hs.cache_val, ?_, ?_, ?_, ?_, ?_, ?_⟩ <;> dsimp only
    · intro j h
      by_cases hj : j = i
      · subst hj; rw [Function.update_same] at h; simp [inCrit] at h
      · rw [Function.update_noteq hj] at h; exact hs.crit_owner j h
    · intro j ho
      have h1 := hs.owner_crit j ho
      by_cases hj : j = i
      · subst hj; rw [hpc] at h1; simp [inCrit] at h1
      · rw [Function.update_noteq hj]; exact h1
    · intro j h
      by_cases hj : j = i
      · subst hj; rw [Function.update_same] at h; simp at h
      · rw [Function.update_noteq hj] at h; exact hs.pc_compile j h
    · intro j h
      by_cases hj : j = i
      · subst hj; rw [Function.update_same] at h; simp at h
      · rw [Function.update_noteq hj] at h
        refine ⟨(hs.pc_insert j h).1, (hs.pc_insert j h).2.1, ?_⟩
        rw [Function.update_noteq hj]; exact (hs.pc_insert j h).2.2
    · intro j h
      by_cases hj : j = i
      · subst hj; rw [Function.update_same] at h; simp at h
      · rw [Function.update_noteq hj] at h
        refine ⟨(hs.pc_release j h).1, ?_⟩
        rw [Function.update_noteq hj]; exact (hs.pc_release j h).2
    · intro j h
      by_cases hj : j = i
      · subst hj; rw [Function.update_same] at h; simp at h
      · rw [Function.update_noteq hj] at h
        refine ⟨(hs.pc_done j h).1, ?_⟩
        rw [Function.update_noteq hj]; exact (hs.pc_done j h).2
    · intro j h
      by_cases hj : j = i
      · have h0 := (hs.cache_val e hc).1
        subst h0; exact hc
      · rw [Function.update_noteq hj] at h; exact hs.pc_read j h
    · intro h1
      rcases hs.compiled_origin h1 with h2 | ⟨j, hj⟩
      · exact Or.inl h2
      · have hji : j ≠ i := by
          intro he; rw [he, hpc] at hj; exact absurd hj (by simp)
        exact Or.inr ⟨j, by rw [Function.update_noteq hji]; exact hj⟩
  | outerMiss hpc hc =>
    refine ⟨?_, ?_, hs.comp_le, hs.cache_val, ?_, ?_, ?_, ?_, ?_, ?_⟩ <;> dsimp only
    · intro j h
      by_cases hj : j = i
      · subst hj; rw [Function.update_same] at h; simp [inCrit] at h
      · rw [Function.update_noteq hj] at h; exact hs.crit_owner j h
    · intro j ho
      have h1 := hs.owner_crit j ho
      by_cases hj : j = i
      · subst hj; rw [hpc] at h1; simp [inCrit] at h1
      · rw [Function.update_noteq hj]; exact h1
    · intro j h
      by_cases hj : j = i
      · subst hj; rw [Function.update_same] at h; simp at h
      · rw [Function.update_noteq hj] at h; exact hs.pc_compile j h
    · intro j h
      by_cases hj : j = i
      · subst hj; rw [Function.update_same] at h; simp at h
      · rw [Function.update_noteq hj] at h
        refine ⟨(hs.pc_insert j h).1, (hs.pc_insert j h).2.1, ?_⟩
        rw [Function.update_noteq hj]; exact (hs.pc_insert j h).2.2
    · intro j h
      by_cases hj : j = i
      · subst hj; rw [Function.update_same] at h; simp at h
      · rw [Function.update_noteq hj] at h
        refine ⟨(hs.pc_release j h).1, ?_⟩
        rw [Function.update_noteq hj]; exact (hs.pc_release j h).2
    · intro j h
      by_cases hj : j = i
      · subst hj; rw [Function.update_same] at h; simp at h
      · rw [Function.update_noteq hj] at h
        refine ⟨(hs.pc_done j h).1, ?_⟩
        rw [Function.update_noteq hj]; exact (hs.pc_done j h).2
    · intro j h
      by_cases hj : j = i
      · subst hj; rw [Function.update_same] at h; simp at h
      · rw [Function.update_noteq hj] at h; exact hs.pc_read j h
    · intro h1
      rcases hs.compiled_origin h1 with h2 | ⟨j, hj⟩
      · exact Or.inl h2
      · have hji : j ≠ i := by
          intro he; rw [he, hpc] at hj; exact absurd hj (by simp)
        exact Or.inr ⟨j, by rw [Function.update_noteq hji]; exact hj⟩
  | acquire hpc hl =>
    refine ⟨?_, ?_, hs.comp_le, hs.cache_val, ?_, ?_, ?_, ?_, ?_, ?_⟩ <;> dsimp only
    · intro j h
      by_cases hj : j = i
      · subst hj; rfl
      · rw [Function.update_noteq hj] at h
        have h2 := hs.crit_owner j h
        rw [hl] at h2; exact absurd h2 (by simp)
    · intro j ho
      have hji : j = i := (Option.some.inj ho).symm
      subst hji
      rw [Function.update_same]
      rfl
    · intro j h
      by_cases hj : j = i
      · subst hj; rw [Function.update_same] at h; simp at h
      · rw [Function.update_noteq hj] at h; exact hs.pc_compile j h
    · intro j h
      by_cases hj : j = i
      · subst hj; rw [Function.update_same] at h; simp at h
      · rw [Function.update_noteq hj] at h
        refine ⟨(hs.pc_insert j h).1, (hs.pc_insert j h).2.1, ?_⟩
        rw [Function.update_noteq hj]; exact (hs.pc_insert j h).2.2
    · intro j h
      by_cases hj : j = i
      · subst hj; rw [Function.update_same] at h; simp at h
      · rw [Function.update_noteq hj] at h
        refine ⟨(hs.pc_release j h).1, ?_⟩
        rw [Function.update_noteq hj]; exact (hs.pc_release j h).2
    · intro j h
      by_cases hj : j = i
      · subst hj; rw [Function.update_same] at h; simp at h
      · rw [Function.update_noteq hj] at h
        refine ⟨(hs.pc_done j h).1, ?_⟩
        rw [Function.update_noteq hj]; exact (hs.pc_done j h).2
    · intro j h
      by_cases hj : j = i
      · subst hj; rw [Function.update_same] at h; simp at h
      · rw [Function.update_noteq hj] at h; exact hs.pc_read j h
    · intro h1
      rcases hs.compiled_origin h1 with h2 | ⟨j, hj⟩
      · exact Or.inl h2
      · have hji : j ≠ i := by
          intro he; rw [he, hpc] at hj; exact absurd hj (by simp)
        exact Or.inr ⟨j, by rw [Function.update_noteq hji]; exact hj⟩
  | innerHit e hpc hc =>
    refine ⟨?_, ?_, hs.comp_le, hs.cache_val, ?_, ?_, ?_, ?_, ?_, ?_⟩ <;> dsimp only
    · intro j h
      by_cases hj : j = i
      · subst hj; rw [Function.update_same] at h; simp [inCrit] at h
      · rw [Function.update_noteq hj] at h
        have h2 := hs.crit_owner j h
        have h3 := hs.crit_owner i (by rw [hpc]; rfl)
        rw [h3] at h2
        exact absurd (Option.some.inj h2).symm hj
    · intro j ho; exact absurd ho (by simp)
    · intro j h
      by_cases hj : j = i
      · subst hj; rw [Function.update_same] at h; simp at h
      · rw [Function.update_noteq hj] at h; exact hs.pc_compile j h
    · intro j h
      by_cases hj : j = i
      · subst hj; rw [Function.update_same] at h; simp at h
      · rw [Function.update_noteq hj] at h
        refine ⟨(hs.pc_insert j h).1, (hs.pc_insert j h).2.1, ?_⟩
        rw [Function.update_noteq hj]; exact (hs.pc_insert j h).2.2
    · intro j h
      by_cases hj : j = i
      · subst hj; rw [Function.update_same] at h; simp at h
      · rw [Function.update_noteq hj] at h
        refine ⟨(hs.pc_release j h).1, ?_⟩
        rw [Function.update_noteq hj]; exact (hs.pc_release j h).2
    · intro j h
      by_cases hj : j = i
      · subst hj; rw [Function.update_same] at h; simp at h
      · rw [Function.update_noteq hj] at h
        refine ⟨(hs.pc_done j h).1, ?_⟩
        rw [Function.update_noteq hj]; exact (hs.pc_done j h).2
    · intro j h
      by_cases hj : j = i
      · have h0 := (hs.cache_val e hc).1
        subst h0; exact hc
      · rw [Function.update_noteq hj] at h; exact hs.pc_read j h
    · intro h1
      rcases hs.compiled_origin h1 with h2 | ⟨j, hj⟩
      · exact Or.inl h2
      · have hji : j ≠ i := by
          intro he; rw [he, hpc] at hj; exact absurd hj (by simp)
        exact Or.inr ⟨j, by rw [Function.update_noteq hji]; exact hj⟩
  | innerMiss hpc hc =>
    have hown : s.lockOwner = some i := hs.crit_owner i (by rw [hpc]; rfl)
    have hcomp0 : s.compiles = 0 := by
      rcases Nat.lt_or_ge s.compiles 1 with h1 | h1
      · omega
      · exfalso
        have hc1 : s.compiles = 1 := le_antisymm hs.comp_le h1
        rcases hs.compiled_origin hc1 with h2 | ⟨j, hj⟩
        · rw [hc] at h2; exact absurd h2 (by simp)
        · have h3 := hs.crit_owner j (by rw [hj]; rfl)
          rw [hown] at h3
          have hji : j = i := (Option.some.inj h3).symm
          rw [hji, hpc] at hj
          exact absurd hj (by simp)
    refine ⟨?_, ?_, hs.comp_le, hs.cache_val, ?_, ?_, ?_, ?_, ?_, ?_⟩ <;> dsimp only
    · intro j h
      by_cases hj : j = i
      · subst hj; exact hown
      · rw [Function.update_noteq hj] at h; exact hs.crit_owner j h
    · intro j ho
      by_cases hj : j = i
      · subst hj; rw [Function.update_same]; rfl
      · rw [Function.update_noteq hj]; exact hs.owner_crit j ho
    · intro j h
      by_cases hj : j = i
      · exact ⟨hc, hcomp0⟩
      · rw [Function.update_noteq hj] at h; exact hs.pc_compile j h
    · intro j h
      by_cases hj : j = i
      · subst hj; rw [Function.update_same] at h; simp at h
      · rw [Function.update_noteq hj] at h
        refine ⟨(hs.pc_insert j h).1, (hs.pc_insert j h).2.1, ?_⟩
        rw [Function.update_noteq hj]; exact (hs.pc_insert j h).2.2
    · intro j h
      by_cases hj : j = i
      · subst hj; rw [Function.update_same] at h; simp at h
      · rw [Function.update_noteq hj] at h
        refine ⟨(hs.pc_release j h).1, ?_⟩
        rw [Function.update_noteq hj]; exact (hs.pc_release j h).2
    · intro j h
      by_cases hj : j = i
      · subst hj; rw [Function.update_same] at h; simp at h
      · rw [Function.update_noteq hj] at h
        refine ⟨(hs.pc_done j h).1, ?_⟩
        rw [Function.update_noteq hj]; exact (hs.pc_done j h).2
    · intro j h
      by_cases hj : j = i
      · subst hj; rw [Function.update_same] at h; simp at h
      · rw [Function.update_noteq hj] at h; exact hs.pc_read j h
    · intro h1
      exact absurd h1 (by omega)
  | compileStep hpc =>
    have hcc := hs.pc_compile i hpc
    have hown : s.lockOwner = some i := hs.crit_owner i (by rw [hpc]; rfl)
    refine ⟨?_, ?_, ?_, ?_, ?_, ?_, ?_, ?_, ?_, ?_⟩ <;> dsimp only
    · intro j h
      by_cases hj : j = i
      · subst hj; exact hown
      · rw [Function.update_noteq hj] at h; exact hs.crit_owner j h
    · intro j ho
      by_cases hj : j = i
      · subst hj; rw [Function.update_same]; rfl
      · rw [Function.update_noteq hj]; exact hs.owner_crit j ho
    · omega
    · intro e he
      rw [hcc.1] at he; simp at he
    · intro j h
      by_cases hj : j = i
      · subst hj; rw [Function.update_same] at h; simp at h
      · rw [Function.update_noteq hj] at h
        have h3 := hs.crit_owner j (by rw [h]; rfl)
        rw [hown] at h3
        exact absurd (Option.some.inj h3).symm hj
    · intro j h
      by_cases hj : j = i
      · subst hj
        refine ⟨hcc.1, by omega, ?_⟩
        rw [Function.update_same]
        rw [hcc.2]
      · rw [Function.update_noteq hj] at h
        have h3 := hs.crit_owner j (by rw [h]; rfl)
        rw [hown] at h3
        exact absurd (Option.some.inj h3).symm hj
    · intro j h
      by_cases hj : j = i
      · subst hj; rw [Function.update_same] at h; simp at h
      · rw [Function.update_noteq hj] at h
        have h2 := (hs.pc_release j h).1
        rw [hcc.1] at h2
        exact absurd h2 (by simp)
    · intro j h
      by_cases hj : j = i
      · subst hj; rw [Function.update_same] at h; simp at h
      · rw [Function.update_noteq hj] at h
        have h2 := (hs.pc_done j h).1
        rw [hcc.1] at h2
        exact absurd h2 (by simp)
    · intro j h
      by_cases hj : j = i
      · subst hj; rw [Function.update_same] at h; simp at h
      · rw [Function.update_noteq hj] at h
        have h2 := hs.pc_read j h
        rw [hcc.1] at h2
        exact absurd h2 (by simp)
    · intro _
      exact Or.inr ⟨i, by rw [Function.update_same]⟩
  | insertStep hpc =>
    have hcc := hs.pc_insert i hpc
    have hown : s.lockOwner = some i := hs.crit_owner i (by rw [hpc]; rfl)
    refine ⟨?_, ?_, hs.comp_le, ?_, ?_, ?_, ?_, ?_, ?_, ?_⟩ <;> dsimp only
    · intro j h
      by_cases hj : j = i
      · subst hj; exact hown
      · rw [Function.update_noteq hj] at h; exact hs.crit_owner j h
    · intro j ho
      by_cases hj : j = i
      · subst hj; rw [Function.update_same]; rfl
      · rw [Function.update_noteq hj]; exact hs.owner_crit j ho
    · intro e he
      rw [hcc.2.2] at he
      exact ⟨(Option.some.inj he).symm, hcc.2.1⟩
    · intro j h
      by_cases hj : j = i
      · subst hj; rw [Function.update_same] at h; simp at h
      · rw [Function.update_noteq hj] at h
        have h3 := hs.crit_owner j (by rw [h]; rfl)
        rw [hown] at h3
        exact absurd (Option.some.inj h3).symm hj
    · intro j h
      by_cases hj : j = i
      · subst hj; rw [Function.update_same] at h; simp at h
      · rw [Function.update_noteq hj] at h
        have h3 := hs.crit_owner j (by rw [h]; rfl)
        rw [hown] at h3
        exact absurd (Option.some.inj h3).symm hj
    · intro j h
      by_cases hj : j = i
      · subst hj
        refine ⟨hcc.2.2, ?_⟩
        rw [Function.update_same]
        exact hcc.2.2
      · rw [Function.update_noteq hj] at h
        have h2 := (hs.pc_release j h).1
        rw [hcc.1] at h2
        exact absurd h2 (by simp)
    · intro j h
      by_cases hj : j = i
      · subst hj; rw [Function.update_same] at h; simp at h
      · rw [Function.update_noteq hj] at h
        have h2 := (hs.pc_done j h).1
        rw [hcc.1] at h2
        exact absurd h2 (by simp)
    · intro j h
      by_cases hj : j = i
      · subst hj; rw [Function.update_same] at h; simp at h
      · rw [Function.update_noteq hj] at h
        have h2 := hs.pc_read j h
        rw [hcc.1] at h2
        exact absurd h2 (by simp)
    · intro _
      exact Or.inl hcc.2.2
  | releaseStep hpc =>
    have hcc := hs.pc_release i hpc
    have hown : s.lockOwner = some i := hs.crit_owner i (by rw [hpc]; rfl)
    refine ⟨?_, ?_, hs.comp_le, hs.cache_val, ?_, ?_, ?_, ?_, ?_, ?_⟩ <;> dsimp only
    · intro j h
      by_cases hj : j = i
      · subst hj; rw [Function.update_same] at h; simp [inCrit] at h
      · rw [Function.update_noteq hj] at h
        have h2 := hs.crit_owner j h
        rw [hown] at h2
        exact absurd (Option.some.inj h2).symm hj
    · intro j ho; exact absurd ho (by simp)
    · intro j h
      by_cases hj : j = i
      · subst hj; rw [Function.update_same] at h; simp at h
      · rw [Function.update_noteq hj] at h
        have h2 := (hs.pc_compile j h).1
        rw [hcc.1] at h2
        exact absurd h2 (by simp)
    · intro j h
      by_cases hj : j = i
      · subst hj; rw [Function.update_same] at h; simp at h
      · rw [Function.update_noteq hj] at h
        have h2 := (hs.pc_insert j h).1
        rw [hcc.1] at h2
        exact absurd h2 (by simp)
    · intro j h
      by_cases hj : j = i
      · subst hj; rw [Function.update_same] at h; simp at h
      · rw [Function.update_noteq hj] at h
        refine ⟨(hs.pc_release j h).1, ?_⟩
        rw [Function.update_noteq hj]; exact (hs.pc_release j h).2
    · intro j h
      by_cases hj : j = i
      · subst hj
        refine ⟨hcc.1, ?_⟩
        rw [Function.update_same]
        exact hcc.2
      · rw [Function.update_noteq hj] at h
        refine ⟨(hs.pc_done j h).1, ?_⟩
        rw [Function.update_noteq hj]; exact (hs.pc_done j h).2
    · intro j h
      by_cases hj : j = i
      · subst hj; rw [Function.update_same] at h; simp at h
      · rw [Function.update_noteq hj] at h; exact hs.pc_read j h
    · intro h1
      exact Or.inl hcc.1
  | readStep e hpc hc =>
    have h0 : e = 0 := by
      have h1 := hs.pc_read i hpc
      rw [hc] at h1
      exact Option.some.inj h1
    refine ⟨?_, ?_, hs.comp_le, hs.cache_val, ?_, ?_, ?_, ?_, ?_, ?_⟩ <;> dsimp only
    · intro j h
      by_cases hj : j = i
      · subst hj; rw [Function.update_same] at h; simp [inCrit] at h
      · rw [Function.update_noteq hj] at h; exact hs.crit_owner j h
    · intro j ho
      have h1 := hs.owner_crit j ho
      by_cases hj : j = i
      · subst hj; rw [hpc] at h1; simp [inCrit] at h1
      · rw [Function.update_noteq hj]; exact h1
    · intro j h
      by_cases hj : j = i
      · subst hj; rw [Function.update_same] at h; simp at h
      · rw [Function.update_noteq hj] at h; exact hs.pc_compile j h
    · intro j h
      by_cases hj : j = i
      · subst hj; rw [Function.update_same] at h; simp at h
      · rw [Function.update_noteq hj] at h
        refine ⟨(hs.pc_insert j h).1, (hs.pc_insert j h).2.1, ?_⟩
        rw [Function.update_noteq hj]; exact (hs.pc_insert j h).2.2
    · intro j h
      by_cases hj : j = i
      · subst hj; rw [Function.update_same] at h; simp at h
      · rw [Function.update_noteq hj] at h
        refine ⟨(hs.pc_release j h).1, ?_⟩
        rw [Function.update_noteq hj]; exact (hs.pc_release j h).2
    · intro j h
      by_cases hj : j = i
      · subst hj
        refine ⟨h0 ▸ hc, ?_⟩
        rw [Function.update_same]
        rw [h0]
      · rw [Function.update_noteq hj] at h
        refine ⟨(hs.pc_done j h).1, ?_⟩
        rw [Function.update_noteq hj]; exact (hs.pc_done j h).2
    · intro j h
      by_cases hj : j = i
      · subst hj; rw [Function.update_same] at h; simp at h
      · rw [Function.update_noteq hj] at h; exact hs.pc_read j h
    · intro h1
      rcases hs.compiled_origin h1 with h2 | ⟨j, hj⟩
      · exact Or.inl h2
      · have hji : j ≠ i := by
          intro he; rw [he, hpc] at hj; exact absurd hj (by simp)
        exact Or.inr ⟨j, by rw [Function.update_noteq hji]; exact hj⟩

theorem reachable_sysInv {n : Nat} {s : Sys n} (h : Reachable s) : SysInv s := by
  induction h with
  | refl => exact sysInv_init n
  | tail _ hstep ih => exact sysInv_step ih hstep

/-! ### Persistent store: `LibTuner.getvalue` / `preload` / `store`
(libentry.py lines 15-90)

Persisted rows are `(key TEXT, config TEXT)` pairs produced by `str(key)` and
`str(config)`; decoding goes through Python `eval` and string splitting, which
we model over explicit character lists. -/

/-- Left-to-right, non-overlapping split on a non-empty separator
(the semantics of Python `str.split(sep)`), fuelled for structural recursion
(the fuel is the input length plus one, which always suffices). -/
def splitChars (sep : List Char) : Nat → List Char → List Char → List (List Char)
  | 0, s, acc => [acc.reverse ++ s]
  | _ + 1, [], acc => [acc.reverse]
  | fuel + 1, c :: rest, acc =>
    if sep.isPrefixOf (c :: rest) then
      acc.reverse :: splitChars sep fuel ((c :: rest).drop sep.length) []
    else splitChars sep fuel rest (c :: acc)

/-- Python `s.split(sep)` for a non-empty separator. -/
def pySplit (sep s : String) : List String :=
  (splitChars sep.toList (s.toList.length + 1) s.toList []).map List.asString

/-- Python `s[1:-1]`. -/
def pySlice1Neg1 (s : String) : String :=
  ((s.toList.drop 1).dropLast).asString

/-- Digits-only decimal parse (empty input fails). -/
def digitsToNat (cs : List Char) : Option Nat :=
  if cs.isEmpty then Option.none
  else cs.foldl (fun acc c =>
    match acc with
    | some n => if c.isDigit then some (n * 10 + (c.toNat - 48)) else Option.none
    | Option.none => Option.none) (some 0)

/-- Python `int(s)` on the token domain of persisted rows: an optional minus
sign followed by decimal digits; anything else raises (`Option.none`). -/
def parseIntStr (s : String) : Option Int :=
  match s.toList with
  | '-' :: rest => (digitsToNat rest).map (fun n => -(n : Int))
  | cs => (digitsToNat cs).map (fun n => (n : Int))

/-- Names of the modelled torch dtype attributes. -/
def dtypeName : DType → String
  | .float16 => "float16"
  | .float32 => "float32"
  | .float64 => "float64"
  | .bfloat16 => "bfloat16"
  | .int8 => "int8"
  | .int16 => "int16"
  | .int32 => "int32"
  | .int64 => "int64"
  | .uint8 => "uint8"
  | .boolT => "bool"

/-- The torch symbol table used by the decode fallback. -/
def torchDtypes : List (String × DType) :=
  [("float16", .float16), ("float32", .float32), ("float64", .float64),
   ("bfloat16", .bfloat16), ("int8", .int8), ("int16", .int16),
   ("int32", .int32), ("int64", .int64), ("uint8", .uint8), ("bool", .boolT)]

/-- `getattr(torch, name)` against the modelled symbol table. -/
def torchAttr (name : String) : Option PyVal :=
  (alookup torchDtypes name).map .dtype

/-- Python `repr` of a modelled value, as it appears inside `str(tuple)`. -/
def pyRepr : PyVal → String
  | .int n => toString n
  | .bool b => if b then "True" else "False"
  | .str s => "'" ++ s ++ "'"
  | .dtype d => "torch." ++ dtypeName d
  | .pytype _ => "<class>"
  | .tensor _ _ => "<tensor>"
  | .none => "None"

/-- Python `str` of a modelled value (as interpolated by f-strings). -/
def pyStr : PyVal → String
  | .str s => s
  | v => pyRepr v

/-- Python `str` of a tuple: elements by `repr`, a singleton tuple rendered
with a trailing comma. -/
def pyReprTuple (vs : List PyVal) : String :=
  match vs with
  | [v] => "(" ++ pyRepr v ++ ",)"
  | _ => "(" ++ String.intercalate ", " (vs.map pyRepr) ++ ")"

/-- Python `eval` restricted to the literal domain occurring in persisted rows:
integer literals, `True` / `False` / `None`, and `torch.<name>` attribute
references (the module `torch` is in scope at the call site).  Anything else
raises, modelled as `Option.none`. -/
def evalStr (s : String) : Option PyVal :=
  match parseIntStr s with
  | some n => some (.int n)
  | Option.none =>
    if s = "True" then some (.bool true)
    else if s = "False" then some (.bool false)
    else if s = "None" then some .none
    else if List.isPrefixOf "torch.".toList s.toList then
      torchAttr ((s.toList.drop 6).asString)
    else Option.none

/-- `LibTuner.getvalue` (libentry.py lines 50-54): `eval(key)`, falling back on
any exception to `getattr(torch, key.split(".")[1][:-1])`.  The fallback
itself raises `IndexError` when the token has no second dot-component, and
`AttributeError` when the stripped name is not in the torch symbol table. -/
def LibTuner.getvalue (key : String) : Except String PyVal :=
  match evalStr key with
  | some v => .ok v
  | Option.none =>
    match (pySplit "." key).get? 1 with
    | Option.none => .error "IndexError"
    | some piece =>
      match torchAttr ((piece.toList.dropLast).asString) with
      | some v => .ok v
      | Option.none => .error "AttributeError"

/-- A key of `LibTuner.cache`: the inherited Autotuner inserts tuples of
key-argument values; `preload` inserts the generator expression
`(self.getvalue(k) for k in key_str[1:-1].split(", "))` itself — an opaque
object compared only by identity, modelled as `genId` with a fresh index. -/
inductive TunerKey where
  | tup (vs : List PyVal)
  | genId (i : Nat)
deriving DecidableEq, Repr

/-- The in-memory map `self.cache` of a `LibTuner`. -/
abbrev TunerCache := List (TunerKey × TConfig)

/-- `triton.Config.__str__` (external collaborator; the format
`LibTuner.preload` parses back): the kwargs as `k: v` items followed by
`num_warps`, `num_ctas`, `num_stages`, `enable_fp_fusion`, joined by ", ". -/
def configStr (c : TConfig) : String :=
  String.intercalate ", "
    ((c.kwargs.map fun kv => kv.1 ++ ": " ++ pyStr kv.2) ++
      ["num_warps: " ++ toString c.num_warps,
       "num_ctas: " ++ toString c.num_ctas,
       "num_stages: " ++ toString c.num_stages,
       "enable_fp_fusion: " ++ (if c.enable_fp_fusion then "True" else "False")])

/-- Python `str` of a `LibTuner.cache` key, as written by `store`. -/
def tunerKeyStr : TunerKey → String
  | .tup vs => pyReprTuple vs
  | .genId i => "<generator object LibTuner.preload." ++ toString i ++ ">"

/-- Python `item[1]`, raising `IndexError` when absent. -/
def itemSecond (item : List String) : Except String String :=
  match item.get? 1 with
  | some v => .ok v
  | Option.none => .error "IndexError"

/-- Decoding one persisted config text, as the row loop of `LibTuner.preload`
does: split on ", " then each item on ": "; all items but the last four are
kwargs (`config.kwargs[k] = eval(v)`; an item that is not a `k: v` pair raises
at tuple unpacking); the last four are `int(cfg_ls[-4][1])`,
`int(cfg_ls[-3][1])`, `int(cfg_ls[-2][1])` and `eval(cfg_ls[-1][1])` for
`num_warps`, `num_ctas`, `num_stages`, `enable_fp_fusion` (fewer than four
items raises `IndexError` at `cfg_ls[-4]`).  `preload` installs no per-row
handler, so any raise here propagates. -/
def parseConfig (s : String) : Except String TConfig := do
  let cfg_ls := (pySplit ", " s).map (fun item => pySplit ": " item)
  let kwItems := cfg_ls.take (cfg_ls.length - 4)
  let kwPairs ← kwItems.mapM (fun item =>
    match item with
    | [k, v] =>
      match evalStr v with
      | some pv => Except.ok (k, pv)
      | Option.none => Except.error "NameError"
    | _ => Except.error "ValueError")
  let kwargs := kwPairs.foldl (fun d kv => aset d kv.1 kv.2) []
  if cfg_ls.length < 4 then Except.error "IndexError"
  else do
    let wStr ← itemSecond (cfg_ls.getD (cfg_ls.length - 4) [])
    let nw ← match parseIntStr wStr with
      | some n => Except.ok n
      | Option.none => Except.error "ValueError"
    let cStr ← itemSecond (cfg_ls.getD (cfg_ls.length - 3) [])
    let nc ← match parseIntStr cStr with
      | some n => Except.ok n
      | Option.none => Except.error "ValueError"
    let sStr ← itemSecond (cfg_ls.getD (cfg_ls.length - 2) [])
    let ns ← match parseIntStr sStr with
      | some n => Except.ok n
      | Option.none => Except.error "ValueError"
    let fStr ← itemSecond (cfg_ls.getD (cfg_ls.length - 1) [])
    let fp ← match evalStr fStr with
      | some (.bool b) => Except.ok b
      | some _ => Except.error "TypeError"
      | Option.none => Except.error "NameError"
    Except.ok { kwargs := kwargs, num_warps := nw, num_ctas := nc,
                num_stages := ns, enable_fp_fusion := fp }

/-- The row loop of `LibTuner.preload` (libentry.py lines 62-75): for each row,
`key` is bound to the generator expression
`(self.getvalue(k) for k in key_str[1:-1].split(", "))` — the generator is
never consumed, so `getvalue` never runs here and `self.cache[key] = config`
keys the entry by the generator object itself (a fresh identity per row); the
config text is decoded eagerly and any raise propagates out of the loop. -/
def preloadAux : List (String × String) → Nat → TunerCache → Except String TunerCache
  | [], _, cache => .ok cache
  | (_, config_str) :: rest, idx, cache =>
    match parseConfig config_str with
    | .error e => .error e
    | .ok config => preloadAux rest (idx + 1) (aset cache (.genId idx) config)

/-- `LibTuner.preload` on the rows of this kernel's table, starting from the
(empty) in-memory cache. -/
def LibTuner.preload (rows : List (String × String)) : Except String TunerCache :=
  preloadAux rows 0 []

/-- SQLite `INSERT OR IGNORE` into the table created by
`CREATE TABLE IF NOT EXISTS <name> (key TEXT, config TEXT)`.  That schema
declares no PRIMARY KEY and no UNIQUE constraint, and SQLite's `OR IGNORE`
conflict clause only suppresses rows violating a uniqueness constraint, so
here the statement unconditionally appends the row. -/
def insertOrIgnore (table : List (String × String)) (row : String × String) :
    List (String × String) :=
  table ++ [row]

/-- `LibTuner.store` (libentry.py lines 79-90): flush every in-memory
`(key, config)` pair as `(str(key), str(config))` via `INSERT OR IGNORE`. -/
def LibTuner.store (cache : TunerCache) (table : List (String × String)) :
    List (String × String) :=
  cache.foldl (fun t kv => insertOrIgnore t (tunerKeyStr kv.1, configStr kv.2)) table

/-- Modelled from the spec: the resolve step of the external
`triton.runtime.Autotuner.run` (the base class of `LibTuner`; its code is not
under `src/`): "On resolve: if problem_shape_key is present in memory, return
it immediately (no benchmarking). Otherwise benchmark every candidate
configuration ... and store it in the in-memory map."  The Autotuner looks the
tuple of key-argument values up in `self.cache`; the returned Bool records
whether a benchmarking pass ran. -/
def LibTuner.resolveShape (cache : TunerCache) (key : List PyVal)
    (benchResult : TConfig) : TConfig × Bool :=
  match alookup cache (TunerKey.tup key) with
  | some cfg => (cfg, false)
  | Option.none => (benchResult, true)

/-! ### Shared concrete instances used by the claims below -/

/-- A tuning config as pre-populated in the persistent store. -/
def cfgA : TConfig := ⟨[("BLOCK", .int 64)], 4, 1, 3, true⟩

/-- A different tuning config resolved locally by a process. -/
def cfgB : TConfig := ⟨[("BLOCK", .int 128)], 8, 1, 2, true⟩

/-- A registered entry whose chain is just a JIT function with no parameters. -/
def eGood : LibEntry := ⟨.jit [], []⟩

/-- A registered entry whose chain contains an unrecognized wrapper. -/
def eBad : LibEntry := ⟨.unknownFn (.jit []), []⟩

/-- Empty dispatch state (all per-device caches empty). -/
def st0 : DispatchState := ⟨fun _ => [], 0⟩

/-- A dispatch state whose device-0 cache already holds the entry of `eGood`'s
(empty) specialization key: kernel id 7, no constexprs. -/
def stHit : DispatchState := ⟨fun _ => [(entryKey eGood [] [], (7, []))], 3⟩

/-! ### C3, C4, C5 — the persistent store -/

/-- C3: `LibTuner.store` evaluated at a table that already holds a row for the
flushed key: the flush appends a second row under the same key.  The schema
`(key TEXT, config TEXT)` has no uniqueness constraint, so `INSERT OR IGNORE`
(the code's spelled-out insert-if-absent intent) never ignores anything: the
pre-existing row is left unchanged but the key is duplicated, contradicting
the claimed insert-if-absent semantics. -/
theorem store_duplicates_existing_key :
    LibTuner.store [(TunerKey.tup [.int 1024], cfgB)] [("(1024,)", configStr cfgA)] =
      [("(1024,)", configStr cfgA), ("(1024,)", configStr cfgB)] ∧
    configStr cfgA ≠ configStr cfgB := by
  constructor
  · rfl
  · decide

/-- C4: the persistent-store round trip at a concrete shape: `store` writes the
row and a fresh `preload` decodes the config fields exactly, but files the
entry under the unconsumed generator object (`genId 0`) rather than under a
tuple equal to the original key, so looking up the same shape misses and the
Autotuner benchmarks again (the claim requires no benchmarking). -/
theorem preload_roundtrip_key_unusable :
    LibTuner.preload (LibTuner.store [(TunerKey.tup [.int 64, .int 64], cfgB)] []) =
      .ok [(TunerKey.genId 0, cfgB)] ∧
    alookup [(TunerKey.genId 0, cfgB)] (TunerKey.tup [.int 64, .int 64]) =
      Option.none ∧
    (LibTuner.resolveShape [(TunerKey.genId 0, cfgB)] [.int 64, .int 64] cfgA).2 = true :=
  ⟨by rfl, by rfl, by rfl⟩

/-- C5 counterexample: a table whose first row has unparseable config text:
`preload` raises (`IndexError` at `cfg_ls[-4]`) and the whole load aborts, so
the later well-formed row is never loaded — against the claim that the bad row
is skipped and the remaining rows still load. -/
theorem preload_aborts_on_bad_row :
    LibTuner.preload [("(1,)", "garbage"), ("(2,)", configStr cfgA)] =
      .error "IndexError" := by rfl

theorem aset_keys {κ α : Type} [DecidableEq κ] (d : List (κ × α)) (k : κ) (v : α)
    (P : κ → Prop) (hd : ∀ p ∈ d, P p.1) (hk : P k) :
    ∀ p ∈ aset d k v, P p.1 := by
  intro p hp
  rw [aset] at hp
  split at hp
  · obtain ⟨q, hq, he⟩ := List.mem_map.mp hp
    by_cases h1 : q.1 = k
    · rw [if_pos h1] at he; rw [← he]; exact hk
    · rw [if_neg h1] at he; rw [← he]; exact hd q hq
  · rcases List.mem_append.mp hp with h1 | h1
    · exact hd p h1
    · rw [List.mem_singleton.mp h1]; exact hk

theorem preloadAux_error (rows : List (String × String)) :
    ∀ (idx : Nat) (cache : TunerCache),
    (∃ r ∈ rows, ∃ msg, parseConfig r.2 = .error msg) →
    ∃ msg, preloadAux rows idx cache = .error msg := by
  induction rows with
  | nil =>
    intro idx cache h
    obtain ⟨r, hr, _⟩ := h
    simp at hr
  | cons row rest ih =>
    intro idx cache h
    obtain ⟨rk, rc⟩ := row
    cases hp : parseConfig rc with
    | error msg => exact ⟨msg, by simp [preloadAux, hp]⟩
    | ok cfg =>
      obtain ⟨r, hr, msg, he⟩ := h
      rcases List.mem_cons.mp hr with h1 | h1
      · rw [h1] at he
        rw [hp] at he
        exact absurd he (by simp)
      · have h2 := ih (idx + 1) (aset cache (.genId idx) cfg) ⟨r, h1, msg, he⟩
        simpa [preloadAux, hp] using h2

theorem preloadAux_keys (rows : List (String × String)) :
    ∀ (idx : Nat) (cache res : TunerCache),
    preloadAux rows idx cache = .ok res →
    (∀ p ∈ cache, ∃ i, p.1 = TunerKey.genId i) →
    ∀ p ∈ res, ∃ i, p.1 = TunerKey.genId i := by
  induction rows with
  | nil =>
    intro idx cache res h hc
    rw [preloadAux] at h
    cases h
    exact hc
  | cons row rest ih =>
    intro idx cache res h hc
    obtain ⟨rk, rc⟩ := row
    rw [preloadAux] at h
    cases hp : parseConfig rc with
    | error msg => rw [hp] at h; simp at h
    | ok cfg =>
      rw [hp] at h
      exact ih _ _ _ h
        (aset_keys cache (.genId idx) cfg (fun k => ∃ i, k = TunerKey.genId i)
          hc ⟨idx, rfl⟩)

/-- C5 (amended): an unparseable scalar token makes `getvalue` fall back to a
type-name lookup in the torch symbol table; but `preload` recovers nothing
row-locally: it never parses key tokens at all (every loaded entry is keyed by
the unconsumed generator object), and a row whose config text fails to decode
raises and aborts the entire load — no row is skipped and later rows do not
load. -/
theorem getvalue_fallback_and_preload_abort :
    (∀ t name v, evalStr t = Option.none →
      (pySplit "." t).get? 1 = some name →
      torchAttr ((name.toList.dropLast).asString) = some v →
      LibTuner.getvalue t = .ok v) ∧
    (∀ rows : List (String × String),
      (∃ r ∈ rows, ∃ msg, parseConfig r.2 = .error msg) →
      ∃ msg, LibTuner.preload rows = .error msg) ∧
    (∀ rows cache, LibTuner.preload rows = .ok cache →
      ∀ p ∈ cache, ∃ i, p.1 = TunerKey.genId i) := by
  refine ⟨?_, ?_, ?_⟩
  · intro t name v h1 h2 h3
    simp only [LibTuner.getvalue, h1, h2, h3]
  · intro rows h
    exact preloadAux_error rows 0 [] h
  · intro rows cache h
    exact preloadAux_keys rows 0 [] cache h (by simp)

theorem getvalue_fallback_and_preload_abort_witness :
    LibTuner.getvalue "torch.float32)" = .ok (.dtype .float32) ∧
    (∃ msg, LibTuner.preload [("(1,)", "garbage")] = .error msg) ∧
    (∀ p ∈ ([(TunerKey.genId 0, cfgA)] : TunerCache), ∃ i, p.1 = TunerKey.genId i) :=
  ⟨getvalue_fallback_and_preload_abort.1 "torch.float32)" "float32)"
      (.dtype .float32) (by rfl) (by rfl) (by rfl),
   getvalue_fallback_and_preload_abort.2.1 [("(1,)", "garbage")]
      ⟨("(1,)", "garbage"), by simp, "IndexError", by rfl⟩,
   getvalue_fallback_and_preload_abort.2.2 [("(1,)", configStr cfgA)]
      [(TunerKey.genId 0, cfgA)] (by rfl)⟩

/-! ### C6, C9 — the specialization key -/

/-- C6: two device buffers with equal element dtype whose data pointers fall in
different alignment classes modulo the fixed threshold 16 give different
specialization keys, whatever the surrounding arguments are. -/
theorem key_distinguishes_alignment
    (pre post dns const : List PyVal) (d : DType) (p1 p2 : Nat)
    (ha : p1 % LibEntry.divisibility = 0) (hb : p2 % LibEntry.divisibility ≠ 0) :
    LibEntry.key (pre ++ .tensor d p1 :: post) dns const ≠
      LibEntry.key (pre ++ .tensor d p2 :: post) dns const := by
  intro h
  rw [LibEntry.key, LibEntry.key, List.map_append, List.map_append,
      List.map_cons, List.map_cons] at h
  have h3 := List.append_cancel_left
    (List.append_cancel_right (List.append_cancel_right h))
  have h4 : specKeyElem (.tensor d p1) = specKeyElem (.tensor d p2) := by
    injection h3 with h4 _
  simp only [specKeyElem, KeyElem.pair.injEq, PyVal.bool.injEq] at h4
  have h5 := h4.2
  rw [ha] at h5
  have h7 : (p2 % LibEntry.divisibility == 0) = true := h5.symm.trans (by rfl)
  exact hb (by simpa using h7)

theorem key_distinguishes_alignment_witness :
    LibEntry.key [.tensor .float16 16] [] [] ≠ LibEntry.key [.tensor .float16 8] [] [] :=
  key_distinguishes_alignment [] [] [] [] .float16 16 8 (by decide) (by decide)

/-- C9: the width-class tag of a runtime-only (do-not-specialize) integer
argument: "i32" exactly on [-2^31, 2^31-1]; "u64" exactly on [2^63, 2^64-1];
"i64" for every other integer (in particular above 2^64-1 or below -2^31);
a non-integer, non-buffer runtime-only argument contributes its runtime type. -/
theorem dns_width_classes :
    (∀ n : Int,
      (dnsKeyElem (.int n) = .val (.str "i32") ↔
        (-(2 ^ 31) ≤ n ∧ n ≤ 2 ^ 31 - 1)) ∧
      (dnsKeyElem (.int n) = .val (.str "u64") ↔
        (2 ^ 63 ≤ n ∧ n ≤ 2 ^ 64 - 1)) ∧
      ((¬ (-(2 ^ 31) ≤ n ∧ n ≤ 2 ^ 31 - 1)) → (¬ (2 ^ 63 ≤ n ∧ n ≤ 2 ^ 64 - 1)) →
        dnsKeyElem (.int n) = .val (.str "i64"))) ∧
    (∀ v : PyVal, isInstInt v = false → hasDataPtr v = false →
      dnsKeyElem v = .val (.pytype (typeOf v))) := by
  constructor
  · intro n
    have hd : dnsKeyElem (.int n) =
        (if -(2 ^ 31) ≤ n ∧ n ≤ 2 ^ 31 - 1 then KeyElem.val (.str "i32")
         else if 2 ^ 63 ≤ n ∧ n ≤ 2 ^ 64 - 1 then KeyElem.val (.str "u64")
         else KeyElem.val (.str "i64")) := by
      simp [dnsKeyElem, isInstInt, intValue]
    have hdisj : (-(2 ^ 31) ≤ n ∧ n ≤ 2 ^ 31 - 1) →
        ¬ (2 ^ 63 ≤ n ∧ n ≤ 2 ^ 64 - 1) := by
      intro h1 h2
      have : (2 : Int) ^ 31 - 1 < 2 ^ 63 := by norm_num
      omega
    refine ⟨?_, ?_, ?_⟩
    · rw [hd]
      constructor
      · intro h
        by_cases h1 : -(2 ^ 31) ≤ n ∧ n ≤ 2 ^ 31 - 1
        · exact h1
        · rw [if_neg h1] at h
          by_cases h2 : 2 ^ 63 ≤ n ∧ n ≤ 2 ^ 64 - 1
          · rw [if_pos h2] at h; simp at h
          · rw [if_neg h2] at h; simp at h
      · intro h1; rw [if_pos h1]
    · rw [hd]
      constructor
      · intro h
        by_cases h1 : -(2 ^ 31) ≤ n ∧ n ≤ 2 ^ 31 - 1
        · rw [if_pos h1] at h; simp at h
        · rw [if_neg h1] at h
          by_cases h2 : 2 ^ 63 ≤ n ∧ n ≤ 2 ^ 64 - 1
          · exact h2
          · rw [if_neg h2] at h; simp at h
      · intro h2
        have h1 : ¬ (-(2 ^ 31) ≤ n ∧ n ≤ 2 ^ 31 - 1) := fun h1 => hdisj h1 h2
        rw [if_neg h1, if_pos h2]
    · intro h1 h2
      rw [hd, if_neg h1, if_neg h2]
  · intro v h1 h2
    cases v <;> simp_all [dnsKeyElem, isInstInt, hasDataPtr, typeOf]

theorem dns_width_classes_witness :
    dnsKeyElem (.int 5) = .val (.str "i32") ∧
    dnsKeyElem (.int (2 ^ 63)) = .val (.str "u64") ∧
    dnsKeyElem (.int (2 ^ 64)) = .val (.str "i64") ∧
    dnsKeyElem (.str "x") = .val (.pytype .strT) :=
  ⟨((dns_width_classes.1 5).1).mpr (by norm_num),
   ((dns_width_classes.1 (2 ^ 63)).2.1).mpr (by norm_num),
   (dns_width_classes.1 (2 ^ 64)).2.2 (by norm_num) (by norm_num),
   dns_width_classes.2 (.str "x") rfl rfl⟩

/-! ### C8, C10, C2, C7 — `LibEntry.run` -/

theorem collectStages_unknown (args : List PyVal) (kw : Dict) :
    ∀ f : TritonFn, hasUnknownStage f = true → ∀ ce : Dict,
    collectStages args kw f ce = .error "Invalid Runtime Function" := by
  intro f
  induction f with
  | jit ps => intro h ce; simp [hasUnknownStage] at h
  | autotuner cfg inner ih =>
    intro h ce
    rw [collectStages]
    exact ih (by simpa [hasUnknownStage] using h) _
  | heuristics names values inner ih =>
    intro h ce
    rw [collectStages]
    exact ih (by simpa [hasUnknownStage] using h) _
  | unknownFn inner ih => intro h ce; rfl

/-- The hit branch of `LibEntry.run` in closed form. -/
theorem run_hit_eq (e : LibEntry) (args : List PyVal) (kwargs : Dict)
    (grid : GridSpec) (dev : Nat) (st : DispatchState) (kid : Nat) (ce : Dict)
    (h : alookup (st.kernel_cache dev) (entryKey e args kwargs) = some (kid, ce)) :
    LibEntry.run e args kwargs grid dev st =
      .ok { kernel := kid, constexprs := ce, state := st,
            launched := some ((((match grid with
                | GridSpec.call f => f (gridMeta e.arg_names args kwargs ce)
                | GridSpec.tup g0 => g0) ++ [1, 1]).take 3),
              (collectArgs e args kwargs).kargs),
            compiled := false } := by
  simp only [LibEntry.run, h]

/-- The dispatch state after one miss-path insertion. -/
def missState (e : LibEntry) (args : List PyVal) (kwargs : Dict) (dev : Nat)
    (st : DispatchState) (ce0 : Dict) : DispatchState :=
  { kernel_cache := Function.update st.kernel_cache dev
      ((st.kernel_cache dev) ++
        [(entryKey e args kwargs,
          (st.compileCount, fillDefaults (jitParams e.fn) ce0))]),
    compileCount := st.compileCount + 1 }

/-- The miss branch of `LibEntry.run` in closed form (valid wrapper chain). -/
theorem run_miss_eq (e : LibEntry) (args : List PyVal) (kwargs : Dict)
    (grid : GridSpec) (dev : Nat) (st : DispatchState) (ce0 : Dict)
    (hmiss : alookup (st.kernel_cache dev) (entryKey e args kwargs) = Option.none)
    (hok : collectStages args kwargs e.fn [] = .ok ce0) :
    LibEntry.run e args kwargs grid dev st =
      .ok { kernel := st.compileCount,
            constexprs := fillDefaults (jitParams e.fn) ce0,
            state := missState e args kwargs dev st ce0,
            launched := Option.none, compiled := true } := by
  simp only [LibEntry.run, hmiss, hok, missState]

/-- C8: on a cache miss, when the wrapper chain around the JIT function
contains a stage that is neither an `Autotuner` nor a `Heuristics` stage,
`LibEntry.run` raises `RuntimeError("Invalid Runtime Function")` instead of
returning a result. -/
theorem invalid_stage_raises
    (e : LibEntry) (args : List PyVal) (kwargs : Dict) (grid : GridSpec)
    (dev : Nat) (st : DispatchState)
    (hmiss : alookup (st.kernel_cache dev) (entryKey e args kwargs) = Option.none)
    (hbad : hasUnknownStage e.fn = true) :
    LibEntry.run e args kwargs grid dev st = .error "Invalid Runtime Function" := by
  simp only [LibEntry.run, hmiss, collectStages_unknown args kwargs e.fn hbad []]

theorem invalid_stage_raises_witness :
    LibEntry.run eBad [] [] (GridSpec.tup [1]) 0 st0 = .error "Invalid Runtime Function" :=
  invalid_stage_raises eBad [] [] (GridSpec.tup [1]) 0 st0 (by rfl) (by rfl)

theorem stepPositional_kargs (ps : List Param) (acc : ArgSplit) (ia : Nat × PyVal)
    (h : acc.kargs.length = acc.spec.length + acc.dns.length) :
    (stepPositional ps acc ia).kargs.length =
      (stepPositional ps acc ia).spec.length + (stepPositional ps acc ia).dns.length := by
  rw [stepPositional]
  split_ifs <;> simp [h] <;> omega

theorem stepKeyword_kargs (kwargs : Dict) (acc : ArgSplit) (p : Param)
    (h : acc.kargs.length = acc.spec.length + acc.dns.length) :
    (stepKeyword kwargs acc p).kargs.length =
      (stepKeyword kwargs acc p).spec.length + (stepKeyword kwargs acc p).dns.length := by
  simp only [stepKeyword]
  cases halo : alookup kwargs p.name with
  | some v =>
    simp only [halo]
    split_ifs <;> simp [h] <;> omega
  | none =>
    simp only [halo]
    cases hd : p.default with
    | none => simpa using h
    | some dv =>
      simp only [hd]
      split_ifs <;> simp [h] <;> omega

theorem collectArgs_kargs_len (e : LibEntry) (args : List PyVal) (kwargs : Dict) :
    (collectArgs e args kwargs).kargs.length =
      (collectArgs e args kwargs).spec.length + (collectArgs e args kwargs).dns.length := by
  have hpos : ∀ (l : List (Nat × PyVal)) (acc : ArgSplit),
      acc.kargs.length = acc.spec.length + acc.dns.length →
      (l.foldl (stepPositional (jitParams e.fn)) acc).kargs.length =
        (l.foldl (stepPositional (jitParams e.fn)) acc).spec.length +
          (l.foldl (stepPositional (jitParams e.fn)) acc).dns.length := by
    intro l
    induction l with
    | nil => intro acc h; exact h
    | cons x rest ih =>
      intro acc h
      rw [List.foldl_cons]
      exact ih _ (stepPositional_kargs _ _ _ h)
  have hkw : ∀ (l : List Param) (acc : ArgSplit),
      acc.kargs.length = acc.spec.length + acc.dns.length →
      (l.foldl (stepKeyword kwargs) acc).kargs.length =
        (l.foldl (stepKeyword kwargs) acc).spec.length +
          (l.foldl (stepKeyword kwargs) acc).dns.length := by
    intro l
    induction l with
    | nil => intro acc h; exact h
    | cons x rest ih =>
      intro acc h
      rw [List.foldl_cons]
      exact ih _ (stepKeyword_kargs _ _ _ h)
  simp only [collectArgs]
  exact hkw _ _ (hpos _ _ rfl)

/-- C10: on a cache miss (with a valid chain) `LibEntry.run` returns the fresh
`(kernel, constexprs)` pair immediately after inserting it into the per-device
cache, with no launch record — the grid-resolution/direct-launch path did not
run; that path runs exactly on cache hits, launching on `k_args`; and `k_args`
holds only the specializing and runtime-only arguments (constexpr arguments
contribute to neither). -/
theorem miss_returns_without_launch
    (e : LibEntry) (args : List PyVal) (kwargs : Dict) (grid : GridSpec)
    (dev : Nat) (st : DispatchState) :
    (∀ ce0, alookup (st.kernel_cache dev) (entryKey e args kwargs) = Option.none →
      collectStages args kwargs e.fn [] = .ok ce0 →
      ∃ r, LibEntry.run e args kwargs grid dev st = .ok r ∧
        r.compiled = true ∧ r.launched = Option.none ∧
        r.kernel = st.compileCount ∧
        r.constexprs = fillDefaults (jitParams e.fn) ce0 ∧
        alookup (r.state.kernel_cache dev) (entryKey e args kwargs) =
          some (r.kernel, r.constexprs)) ∧
    (∀ kid ce, alookup (st.kernel_cache dev) (entryKey e args kwargs) = some (kid, ce) →
      ∃ r, LibEntry.run e args kwargs grid dev st = .ok r ∧
        r.compiled = false ∧ r.kernel = kid ∧ r.constexprs = ce ∧ r.state = st ∧
        ∃ g3, r.launched = some (g3, (collectArgs e args kwargs).kargs)) ∧
    (collectArgs e args kwargs).kargs.length =
      (collectArgs e args kwargs).spec.length + (collectArgs e args kwargs).dns.length := by
  refine ⟨?_, ?_, collectArgs_kargs_len e args kwargs⟩
  · intro ce0 hmiss hok
    refine ⟨_, run_miss_eq e args kwargs grid dev st ce0 hmiss hok,
      rfl, rfl, rfl, rfl, ?_⟩
    dsimp only [missState]
    rw [Function.update_same, alookup_append_of_none hmiss, alookup_cons, if_pos rfl]
  · intro kid ce hhit
    exact ⟨_, run_hit_eq e args kwargs grid dev st kid ce hhit,
      rfl, rfl, rfl, rfl, _, rfl⟩

theorem miss_returns_without_launch_witness :
    (∃ r, LibEntry.run eGood [] [] (GridSpec.tup [1]) 0 st0 = .ok r ∧
      r.compiled = true ∧ r.launched = Option.none ∧ r.kernel = st0.compileCount ∧
      r.constexprs = fillDefaults (jitParams eGood.fn) [] ∧
      alookup (r.state.kernel_cache 0) (entryKey eGood [] []) =
        some (r.kernel, r.constexprs)) ∧
    (∃ r, LibEntry.run eGood [] [] (GridSpec.tup [1]) 0 stHit = .ok r ∧
      r.compiled = false ∧ r.kernel = 7 ∧ r.constexprs = [] ∧ r.state = stHit ∧
      ∃ g3, r.launched = some (g3, (collectArgs eGood [] []).kargs)) :=
  ⟨(miss_returns_without_launch eGood [] [] (GridSpec.tup [1]) 0 st0).1 []
      (by rfl) (by rfl),
   (miss_returns_without_launch eGood [] [] (GridSpec.tup [1]) 0 stHit).2.1 7 []
      (by rfl)⟩

theorem runCalls_all_hit (e : LibEntry) (grid : GridSpec) (dev : Nat)
    (calls : List (List PyVal × Dict)) :
    ∀ st2 : DispatchState,
    (∀ c ∈ calls, (alookup (st2.kernel_cache dev) (entryKey e c.1 c.2)).isSome) →
    runCalls e grid dev calls st2 = .ok st2 := by
  induction calls with
  | nil => intro st2 _; rfl
  | cons c rest ih =>
    intro st2 h
    have hc := h c (List.mem_cons_self c rest)
    obtain ⟨entry, hce⟩ := Option.isSome_iff_exists.mp hc
    obtain ⟨kid, ce⟩ := entry
    rw [runCalls, run_hit_eq e c.1 c.2 grid dev st2 kid ce hce]
    exact ih st2 (fun c2 hc2 => h c2 (List.mem_cons_of_mem c hc2))

/-- C2: across a sequence of `LibEntry.run` calls on one device whose arguments
all produce the same specialization key, only the first call runs the
compile/tune path: a call that finds the key present returns the stored entry
with no compile and an unchanged state, and starting from a state where the
key is absent the whole sequence raises the compile counter by exactly one,
leaving the entry produced by the first call in the cache. -/
theorem repeat_calls_compile_once
    (e : LibEntry) (grid : GridSpec) (dev : Nat) (st : DispatchState)
    (c0 : List PyVal × Dict) (rest : List (List PyVal × Dict)) (ce0 : Dict)
    (hkeys : ∀ c ∈ rest, entryKey e c.1 c.2 = entryKey e c0.1 c0.2)
    (hmiss : alookup (st.kernel_cache dev) (entryKey e c0.1 c0.2) = Option.none)
    (hchain : collectStages c0.1 c0.2 e.fn [] = .ok ce0) :
    (∀ (st2 : DispatchState) (args : List PyVal) (kwargs : Dict) (kid : Nat) (ce : Dict),
      alookup (st2.kernel_cache dev) (entryKey e args kwargs) = some (kid, ce) →
      ∃ r, LibEntry.run e args kwargs grid dev st2 = .ok r ∧
        r.kernel = kid ∧ r.constexprs = ce ∧ r.compiled = false ∧ r.state = st2) ∧
    ∃ st', runCalls e grid dev (c0 :: rest) st = .ok st' ∧
      st'.compileCount = st.compileCount + 1 ∧
      alookup (st'.kernel_cache dev) (entryKey e c0.1 c0.2) =
        some (st.compileCount, fillDefaults (jitParams e.fn) ce0) := by
  constructor
  · intro st2 args kwargs kid ce hh
    exact ⟨_, run_hit_eq e args kwargs grid dev st2 kid ce hh, rfl, rfl, rfl, rfl⟩
  · have hlook : alookup ((missState e c0.1 c0.2 dev st ce0).kernel_cache dev)
        (entryKey e c0.1 c0.2) =
        some (st.compileCount, fillDefaults (jitParams e.fn) ce0) := by
      dsimp only [missState]
      rw [Function.update_same, alookup_append_of_none hmiss, alookup_cons, if_pos rfl]
    refine ⟨missState e c0.1 c0.2 dev st ce0, ?_, rfl, hlook⟩
    rw [runCalls, run_miss_eq e c0.1 c0.2 grid dev st ce0 hmiss hchain]
    exact runCalls_all_hit e grid dev rest _ (fun c hc => by
      rw [hkeys c hc]
      rw [hlook]
      rfl)

theorem repeat_calls_compile_once_witness :
    ∃ st', runCalls eGood (GridSpec.tup [1]) 0 [([], []), ([], [])] st0 = .ok st' ∧
      st'.compileCount = st0.compileCount + 1 ∧
      alookup (st'.kernel_cache 0) (entryKey eGood [] []) =
        some (st0.compileCount, fillDefaults (jitParams eGood.fn) []) :=
  (repeat_calls_compile_once eGood (GridSpec.tup [1]) 0 st0 ([], []) [([], [])] []
    (by intro c hc; rw [List.mem_singleton.mp hc]) (by rfl) (by rfl)).2

/-- C7 counterexample: with a callable grid returning the empty shape and a
cache hit, the launch uses a rank-2 shape: `() + (1, 1)` sliced by `[0:3]` is
`(1, 1)`, so the launch does not always use exactly rank 3 as claimed. -/
theorem grid_rank_two_on_empty :
    (LibEntry.run eGood [] [] (GridSpec.call fun _ => []) 0 stHit).map
      (fun r => r.launched.map (fun l => l.1.length)) = .ok (some 2) := by rfl

/-- C7 (amended): on a cache hit with a callable grid, `LibEntry.run` evaluates
the callable on the merged dict of positional arguments zipped with parameter
names, then keyword arguments, then the cached resolved constants — the
constants winning any name conflict and keywords beating positional bindings —
then appends two trailing 1s and truncates to the first three entries; the
launch shape therefore has rank exactly 3 whenever the callable returns a
nonempty shape (an empty shape yields rank 2: just the two padding 1s). -/
theorem grid_meta_precedence_and_padding
    (e : LibEntry) (args : List PyVal) (kwargs ce : Dict) (f : Dict → List Int)
    (dev : Nat) (st : DispatchState) (kid : Nat)
    (hhit : alookup (st.kernel_cache dev) (entryKey e args kwargs) = some (kid, ce))
    (hkw : (kwargs.map Prod.fst).Nodup) (hce : (ce.map Prod.fst).Nodup) :
    (∃ r, LibEntry.run e args kwargs (GridSpec.call f) dev st = .ok r ∧
      r.launched = some ((f (gridMeta e.arg_names args kwargs ce) ++ [1, 1]).take 3,
        (collectArgs e args kwargs).kargs)) ∧
    (∀ k v, alookup ce k = some v →
      alookup (gridMeta e.arg_names args kwargs ce) k = some v) ∧
    (∀ k v, alookup ce k = Option.none → alookup kwargs k = some v →
      alookup (gridMeta e.arg_names args kwargs ce) k = some v) ∧
    (∀ k, alookup ce k = Option.none → alookup kwargs k = Option.none →
      alookup (gridMeta e.arg_names args kwargs ce) k =
        alookup (List.zip e.arg_names args) k) ∧
    (f (gridMeta e.arg_names args kwargs ce) ≠ [] →
      ((f (gridMeta e.arg_names args kwargs ce) ++ [1, 1]).take 3).length = 3) := by
  refine ⟨⟨_, run_hit_eq e args kwargs (GridSpec.call f) dev st kid ce hhit, rfl⟩,
    ?_, ?_, ?_, ?_⟩
  · intro k v h
    rw [gridMeta]
    exact alookup_mergeDicts_of_some ce _ k v hce h
  · intro k v h1 h2
    rw [gridMeta, alookup_mergeDicts_of_none ce _ k h1]
    exact alookup_mergeDicts_of_some kwargs _ k v hkw h2
  · intro k h1 h2
    rw [gridMeta, alookup_mergeDicts_of_none ce _ k h1,
        alookup_mergeDicts_of_none kwargs _ k h2]
  · intro hne
    rw [List.length_take, List.length_append]
    have hp := List.length_pos.mpr hne
    simp only [List.length_cons, List.length_nil]
    omega

theorem grid_meta_precedence_and_padding_witness :
    (((fun (_ : Dict) => ([5] : List Int)) (gridMeta eGood.arg_names [] [] []) ++
        [1, 1]).take 3).length = 3 :=
  (grid_meta_precedence_and_padding eGood [] [] [] (fun _ => [5]) 0 stHit 7
    (by rfl) (by simp) (by simp)).2.2.2.2 (by simp)

/-! ### C1 — single flight under concurrency -/

/-- C1: for any number K ≥ 1 of threads racing the miss path of
`LibEntry.run` on the same absent specialization key, every reachable
configuration in which all threads have finished shows exactly one compile/tune
pass, and every thread holds exactly the entry stored in the cache — the same
compile identity, i.e. the same cached `(kernel, constexprs)` object. -/
theorem dispatch_single_flight (n : Nat) (hn : 0 < n) (s : Sys n)
    (hr : Reachable s) (hdone : ∀ i, (s.th i).pc = PC.done) :
    s.compiles = 1 ∧ ∃ e, s.cache = some e ∧ ∀ i, (s.th i).res = some e := by
  have inv := reachable_sysInv hr
  have g0 := inv.pc_done ⟨0, hn⟩ (hdone ⟨0, hn⟩)
  exact ⟨(inv.cache_val 0 g0.1).2, 0, g0.1, fun i => (inv.pc_done i (hdone i)).2⟩

def trace0 : Sys 1 := SysInit 1

def trace1 : Sys 1 :=
  { trace0 with th := Function.update trace0.th 0 ⟨.awaitLock, (trace0.th 0).res⟩ }

def trace2 : Sys 1 :=
  { trace1 with lockOwner := some 0,
                th := Function.update trace1.th 0 ⟨.innerTest, (trace1.th 0).res⟩ }

def trace3 : Sys 1 :=
  { trace2 with th := Function.update trace2.th 0 ⟨.doCompile, (trace2.th 0).res⟩ }

def trace4 : Sys 1 :=
  { trace3 with compiles := trace3.compiles + 1,
                th := Function.update trace3.th 0 ⟨.doInsert, some trace3.compiles⟩ }

def trace5 : Sys 1 :=
  { trace4 with cache := (trace4.th 0).res,
                th := Function.update trace4.th 0 ⟨.doRelease, (trace4.th 0).res⟩ }

def trace6 : Sys 1 :=
  { trace5 with lockOwner := Option.none,
                th := Function.update trace5.th 0 ⟨.done, (trace5.th 0).res⟩ }

theorem trace6_reachable : Reachable trace6 := by
  have s1 : SysStep trace0 trace1 := ⟨0, ThreadStep.outerMiss trace0 rfl rfl⟩
  have s2 : SysStep trace1 trace2 := ⟨0, ThreadStep.acquire trace1 rfl rfl⟩
  have s3 : SysStep trace2 trace3 := ⟨0, ThreadStep.innerMiss trace2 rfl rfl⟩
  have s4 : SysStep trace3 trace4 := ⟨0, ThreadStep.compileStep trace3 rfl⟩
  have s5 : SysStep trace4 trace5 := ⟨0, ThreadStep.insertStep trace4 rfl⟩
  have s6 : SysStep trace5 trace6 := ⟨0, ThreadStep.releaseStep trace5 rfl⟩
  exact Relation.ReflTransGen.tail
    (Relation.ReflTransGen.tail
      (Relation.ReflTransGen.tail
        (Relation.ReflTransGen.tail
          (Relation.ReflTransGen.tail
            (Relation.ReflTransGen.tail Relation.ReflTransGen.refl s1) s2) s3) s4) s5) s6

theorem dispatch_single_flight_witness :
    trace6.compiles = 1 ∧ ∃ e, trace6.cache = some e ∧
      ∀ i, (trace6.th i).res = some e :=
  dispatch_single_flight 1 (by decide) trace6 trace6_reachable
    (by intro i; rw [Fin.eq_zero i]; rfl)

end FlagGems
